import Mathlib

/-!
Shallow embedding of the enumeration pipeline of `internal/runner/runner.go`
(dnsx). Pure Lean models of the functions the claims are about, followed by
the theorems settling each claim. Machine integers are modelled as `Nat`
(DNS type codes fit in 16 bits and no arithmetic overflows occur in the
modelled code); Go maps used as sets are modelled as duplicate-free lists
with order-preserving insertion; fallible operations return `Option` or
`Except`.
-/

namespace Runner

/-- DNS type codes as used by `miekg/dns` (uint16 values). -/
def typeA : Nat := 1
def typeNS : Nat := 2
def typeCNAME : Nat := 5
def typeSOA : Nat := 6
def typePTR : Nat := 12
def typeMX : Nat := 15
def typeTXT : Nat := 16
def typeAAAA : Nat := 28
def typeSRV : Nat := 33
def typeAXFR : Nat := 252
def typeANY : Nat := 255
def typeCAA : Nat := 257

/-- The slice of the runner `Options` read by the modelled code: the
record-type switches and wildcard-domain flag consumed by `New` (runner.go
lines 81-121), and the output flags consumed by `worker` and
`outputRecordType`. `rcodes` is the response-code allow-list
(`options.rcodes`, a set of ints, modelled as a list) and
`responseTypeFilterEntries` the values of `options.responseTypeFilterMap`. -/
structure Options where
  A : Bool
  AAAA : Bool
  CNAME : Bool
  PTR : Bool
  SOA : Bool
  ANY : Bool
  TXT : Bool
  SRV : Bool
  MX : Bool
  NS : Bool
  CAA : Bool
  WildcardDomain : String
  JSON : Bool
  Raw : Bool
  Response : Bool
  ResponseOnly : Bool
  hasRCodes : Bool
  rcodes : List Nat
  responseTypeFilterEntries : List String
deriving Repr, DecidableEq

/-- `New` (runner.go lines 81-120): build the question-type list from the
record-type switches; if the list is empty or a wildcard domain is
configured, `dns.TypeA` is appended. -/
def buildQuestionTypes (o : Options) : List Nat :=
  let qts : List Nat :=
    (if o.A then [typeA] else []) ++
    (if o.AAAA then [typeAAAA] else []) ++
    (if o.CNAME then [typeCNAME] else []) ++
    (if o.PTR then [typePTR] else []) ++
    (if o.SOA then [typeSOA] else []) ++
    (if o.ANY then [typeANY] else []) ++
    (if o.TXT then [typeTXT] else []) ++
    (if o.SRV then [typeSRV] else []) ++
    (if o.MX then [typeMX] else []) ++
    (if o.NS then [typeNS] else []) ++
    (if o.CAA then [typeCAA] else [])
  if qts.length = 0 ∨ o.WildcardDomain ≠ "" then qts ++ [typeA] else qts

/-- No record-type switch of the options is enabled. -/
def noRecordSwitch (o : Options) : Prop :=
  o.A = false ∧ o.AAAA = false ∧ o.CNAME = false ∧ o.PTR = false ∧
  o.SOA = false ∧ o.ANY = false ∧ o.TXT = false ∧ o.SRV = false ∧
  o.MX = false ∧ o.NS = false ∧ o.CAA = false

instance (o : Options) : Decidable (noRecordSwitch o) := by
  unfold noRecordSwitch; infer_instance

/-- Model of Go `strings.TrimSpace`: drop leading and trailing whitespace.
Defined over the character list so that concrete instances evaluate in the
kernel. -/
def trimSpace (s : String) : String :=
  ⟨((s.data.dropWhile Char.isWhitespace).reverse.dropWhile Char.isWhitespace).reverse⟩

/-- Model of Go `strings.ToLower`. -/
def toLowerStr (s : String) : String := ⟨s.data.map Char.toLower⟩

/-- `pat` is a prefix of `hay` (Boolean, by structural recursion). -/
def containsAt : List Char → List Char → Bool
  | [], _ => true
  | _ :: _, [] => false
  | p :: ps, c :: cs => p == c && containsAt ps cs

/-- Model of Go `strings.Contains`: `pat` occurs as a contiguous substring
of `hay`. -/
def containsSub (hay pat : List Char) : Bool :=
  match hay with
  | [] => containsAt pat []
  | _ :: rest => containsAt pat hay || containsSub rest pat

/-- Model of Go `strings.ReplaceAll` for a non-empty pattern: replace
non-overlapping occurrences left to right. The fuel argument (instantiated
with the subject's length) makes the recursion structural. -/
def replaceAllAux (pat rep : List Char) : Nat → List Char → List Char
  | _, [] => []
  | 0, s => s
  | fuel + 1, c :: rest =>
    if containsAt pat (c :: rest) then
      rep ++ replaceAllAux pat rep fuel (List.drop (pat.length - 1) rest)
    else
      c :: replaceAllAux pat rep fuel rest

/-- Model of Go `strings.ReplaceAll` (non-empty pattern). -/
def replaceAll (s pat rep : String) : String :=
  ⟨replaceAllAux pat.data rep.data s.data.length s.data⟩

/-- `normalize` (runner.go lines 379-381): `strings.TrimSpace`. -/
def normalize (data : String) : String := trimSpace data

/-- One step of `addHostsToHMapFromList` / `addHostsToHMapFromChan`
(runner.go lines 335-359): `hm.Get` then `hm.Set(host, nil)` — insert the
host into the Work Set only if absent, preserving insertion order. -/
def insertIfAbsent (hm : List String) (host : String) : List String :=
  if host ∈ hm then hm else hm ++ [host]

/-- `addHostsToHMapFromList` (runner.go lines 335-346) applied to a whole
list of hosts. -/
def addHostsToHMapFromList (hm : List String) (hosts : List String) : List String :=
  hosts.foldl insertIfAbsent hm

/-- The per-line classification loop of `prepareInput` (runner.go lines
274-316). External classifiers (`iputil.IsCIDR`, `asn.IsASN`) and expanders
(`mapcidr.IPAddressesAsStream`, `asn.GetIPAddressesAsStream`) are
parameters; the wordlist is `none` when `options.WordList` is empty. The
FUZZ branch calls `preProcessArgument(WordList)`, which fails when the
wordlist argument is empty, aborting `prepareInput`; this is the `none`
result. -/
def prepareInputLoop (isCIDR isASN : String → Bool)
    (cidrExpand asnExpand : String → List String)
    (wordList : Option (List String)) :
    List String → List String → Option (List String)
  | hm, [] => some hm
  | hm, line :: rest =>
    let item := normalize line
    if containsSub item.data "FUZZ".data then
      match wordList with
      | none => none
      | some words =>
        let hosts := words.map (fun w => replaceAll item "FUZZ" w)
        prepareInputLoop isCIDR isASN cidrExpand asnExpand (some words)
          (addHostsToHMapFromList hm hosts) rest
    else
      match wordList with
      | some words =>
        let hosts := words.map (fun w => trimSpace w ++ "." ++ item)
        prepareInputLoop isCIDR isASN cidrExpand asnExpand (some words)
          (addHostsToHMapFromList hm hosts) rest
      | none =>
        if isCIDR item then
          prepareInputLoop isCIDR isASN cidrExpand asnExpand none
            (addHostsToHMapFromList hm (cidrExpand item)) rest
        else if isASN item then
          prepareInputLoop isCIDR isASN cidrExpand asnExpand none
            (addHostsToHMapFromList hm (asnExpand item)) rest
        else
          prepareInputLoop isCIDR isASN cidrExpand asnExpand none
            (addHostsToHMapFromList hm [item]) rest

/-- `prepareInput` restricted to its Work-Set effect: fold the
classification loop over the input lines starting from an empty Work Set. -/
def prepareInputWorkSet (isCIDR isASN : String → Bool)
    (cidrExpand asnExpand : String → List String)
    (wordList : Option (List String)) (inputs : List String) :
    Option (List String) :=
  prepareInputLoop isCIDR isASN cidrExpand asnExpand wordList [] inputs

/-- What the spec claims the Work Set is after expansion of an
expansion-free input: the whitespace-trimmed, lower-cased, deduplicated,
non-empty hosts of S (first-occurrence order). -/
def specClaimedWorkSet (inputs : List String) : List String :=
  ((inputs.map (fun s => toLowerStr (trimSpace s))).filter (fun h => h ≠ "")).dedup

/-- `InputWorker` (runner.go lines 200-217): scan the Work Set keys in
order; with a resume configuration, `currentIndex` is incremented per item
and items with `currentIndex <= Index` are skipped; the rest are pushed to
the worker channel. -/
def inputWorkerLoop (resumeIndex : Nat) : Nat → List String → List String
  | _, [] => []
  | currentIndex, h :: rest =>
    let ci := currentIndex + 1
    if ci ≤ resumeIndex then inputWorkerLoop resumeIndex ci rest
    else h :: inputWorkerLoop resumeIndex ci rest

/-- `InputWorker` over the ordered Work-Set keys; `resume` is the loaded
resume index (`none` when no resume configuration is present, in which case
every key is pushed). -/
def inputWorker (hosts : List String) (resume : Option Nat) : List String :=
  match resume with
  | none => hosts
  | some i => inputWorkerLoop i 0 hosts

/-- One SOA answer of `retryabledns.DNSData`; only the `NS` and `Mbox`
fields are read by the modelled code. -/
structure SOARecord where
  ns : String
  mbox : String
deriving Repr, DecidableEq

/-- The slice of `dnsx.ResponseData` (embedding `retryabledns.DNSData`)
read by the modelled output code: the per-type record lists, the raw
response code, the hosts-file marker, and the CDN/ASN enrichment. `ASN` is
the rendered `asn.String()` of the `dnsx.AsnResponse` (`none` when the
pointer is nil). -/
structure ResponseData where
  A : List String
  AAAA : List String
  CNAME : List String
  NS : List String
  TXT : List String
  MX : List String
  SRV : List String
  PTR : List String
  CAA : List String
  SOA : List SOARecord
  statusCodeRaw : Nat
  hostsFile : Bool
  CDNName : String
  ASN : Option String
deriving Repr, DecidableEq

/-- Modelled from the spec: `GetSOARecords` of the DNS client library (out
of src/): "SOA records contribute both NS and Mbox fields as textual
records". -/
def getSOARecords (d : ResponseData) : List String :=
  d.SOA.flatMap (fun s => [s.ns, s.mbox])

/-- `sliceutil.Dedupe` (external util): order-preserving deduplication. -/
def dedupe (l : List String) : List String := l.foldl insertIfAbsent []

/-- The response-code check of `worker` (runner.go lines 647-655): results
from the hosts file are always kept; otherwise, when the allow-list
`options.rcodes` is non-empty, the entry is discarded (`continue`) unless
its raw status code is a member. Returns `true` when the entry is
discarded. -/
def rcodeFilterDiscards (hostsFile : Bool) (rcodes : List Nat) (statusCodeRaw : Nat) : Bool :=
  if !hostsFile then
    if rcodes.length > 0 then !(rcodes.contains statusCodeRaw) else false
  else false

/-- `len(axfrData.DNSData) > 0` guarded by the nil check (runner.go lines
677-683); the argument is `none` when `AXFR` returned a nil pointer,
otherwise the length of its `DNSData` slice. -/
def hasAxfrData (axfrResult : Option Nat) : Bool :=
  match axfrResult with
  | none => false
  | some n => n > 0

/-- The AXFR discard condition of `worker` (runner.go line 685): the entry
is dropped when exactly one question type is configured, the transfer
returned no data, and output is not JSON. -/
def axfrDiscards (questionTypes : List Nat) (axfrResult : Option Nat) (jsonOutput : Bool) : Bool :=
  (questionTypes.length == 1) && !hasAxfrData axfrResult && !jsonOutput

/-- What the claim says the AXFR discard condition is: the only configured
query type is AXFR, no data was returned, and output is not JSON (stated
for comparison with `axfrDiscards`). -/
def specAxfrDiscards (questionTypes : List Nat) (axfrResult : Option Nat) (jsonOutput : Bool) : Bool :=
  (questionTypes == [typeAXFR]) && !hasAxfrData axfrResult && !jsonOutput

/-- The normalized names accepted by the `switch` of `shouldSkipRecord`. -/
def validTypeNames : List String :=
  ["a", "aaaa", "cname", "ns", "txt", "mx", "soa", "srv", "ptr", "caa"]

/-- The length of the record list that the `switch` of `shouldSkipRecord`
inspects for a given normalized filter name (0 for unknown names). -/
def filterFieldLen (d : ResponseData) (name : String) : Nat :=
  if name = "a" then d.A.length
  else if name = "aaaa" then d.AAAA.length
  else if name = "cname" then d.CNAME.length
  else if name = "ns" then d.NS.length
  else if name = "txt" then d.TXT.length
  else if name = "mx" then d.MX.length
  else if name = "soa" then d.SOA.length
  else if name = "srv" then d.SRV.length
  else if name = "ptr" then d.PTR.length
  else if name = "caa" then d.CAA.length
  else 0

/-- `shouldSkipRecord` (runner.go lines 857-905): iterate the configured
filter entries; per entry, trim and lower-case it and switch on the name:
a known record type with at least one record returns `true`; a known type
with no records falls through to the next entry; an unknown name hits the
`default` case and returns `false` immediately. Go iterates the entries of
a map, so their order is arbitrary; it is a parameter here. -/
def shouldSkipRecordLoop (d : ResponseData) : List String → Bool
  | [] => false
  | et :: rest =>
    let name := toLowerStr (trimSpace et)
    if name = "a" then
      (if 0 < d.A.length then true else shouldSkipRecordLoop d rest)
    else if name = "aaaa" then
      (if 0 < d.AAAA.length then true else shouldSkipRecordLoop d rest)
    else if name = "cname" then
      (if 0 < d.CNAME.length then true else shouldSkipRecordLoop d rest)
    else if name = "ns" then
      (if 0 < d.NS.length then true else shouldSkipRecordLoop d rest)
    else if name = "txt" then
      (if 0 < d.TXT.length then true else shouldSkipRecordLoop d rest)
    else if name = "mx" then
      (if 0 < d.MX.length then true else shouldSkipRecordLoop d rest)
    else if name = "soa" then
      (if 0 < d.SOA.length then true else shouldSkipRecordLoop d rest)
    else if name = "srv" then
      (if 0 < d.SRV.length then true else shouldSkipRecordLoop d rest)
    else if name = "ptr" then
      (if 0 < d.PTR.length then true else shouldSkipRecordLoop d rest)
    else if name = "caa" then
      (if 0 < d.CAA.length then true else shouldSkipRecordLoop d rest)
    else false

/-- `shouldSkipRecord` over the configured filter entries. -/
def shouldSkipRecord (filterEntries : List String) (d : ResponseData) : Bool :=
  shouldSkipRecordLoop d filterEntries

/-- The suppression gate of `worker` (runner.go lines 730-732): with a
non-empty response-type filter, an entry for which `shouldSkipRecord`
holds produces no output. -/
def responseTypeFilterSuppresses (o : Options) (d : ResponseData) : Bool :=
  (0 < o.responseTypeFilterEntries.length) && shouldSkipRecord o.responseTypeFilterEntries d

/-- The `details` suffix of `outputRecordType` (runner.go lines 818-824):
`" [CDN]"` when a CDN name is set, then `" " + asn.String()` when the ASN
pointer is non-nil. -/
def mkDetails (cdnName : String) (asnStr : Option String) : String :=
  let details := if cdnName ≠ "" then " [" ++ cdnName ++ "]" else ""
  match asnStr with
  | some s => details ++ " " ++ s
  | none => details

/-- The emission loop of `outputRecordType` (runner.go lines 836-847):
per record (lower-cased), `-resp-only` emits the record, `-resp` emits
`host [TYPE] [record] details`, and the default emits `host details` once
and breaks. ANSI coloring by the aurora library is elided (`NO_COLOR`
behaviour); the colored variant differs only in ANSI wrappers around
`queryType` and the record. -/
def outputRecordTypeLoop (respOnly resp : Bool) (domain queryType details : String) :
    List String → List String
  | [] => []
  | item :: rest =>
    let litem := toLowerStr item
    if respOnly then
      (litem ++ details) :: outputRecordTypeLoop respOnly resp domain queryType details rest
    else if resp then
      (domain ++ " [" ++ queryType ++ "] [" ++ litem ++ "] " ++ details) ::
        outputRecordTypeLoop respOnly resp domain queryType details rest
    else
      [domain ++ details]

/-- `outputRecordType` (runner.go lines 817-848). In this file every call
site passes a `[]string` of records (the `[]retryabledns.SOA` arm of its
switch is not exercised by `runner.go`, which pre-flattens SOA records). -/
def outputRecordType (respOnly resp : Bool) (domain : String) (records : List String)
    (queryType : String) (cdnName : String) (asnStr : Option String) : List String :=
  outputRecordTypeLoop respOnly resp domain queryType (mkDetails cdnName asnStr) records

/-- `dns.RcodeToString` of the miekg/dns library (external table),
restricted to the standard codes; `none` for an unknown code. -/
def rcodeToString (code : Nat) : Option String :=
  if code = 0 then some "NOERROR"
  else if code = 1 then some "FORMERR"
  else if code = 2 then some "SERVFAIL"
  else if code = 3 then some "NXDOMAIN"
  else if code = 4 then some "NOTIMP"
  else if code = 5 then some "REFUSED"
  else if code = 6 then some "YXDOMAIN"
  else if code = 7 then some "YXRRSET"
  else if code = 8 then some "NXRRSET"
  else if code = 9 then some "NOTAUTH"
  else if code = 10 then some "NOTZONE"
  else none

/-- `outputResponseCode` (runner.go lines 850-855). -/
def outputResponseCode (domain : String) (code : Nat) : List String :=
  match rcodeToString code with
  | some s => [domain ++ " [" ++ s ++ "]"]
  | none => []

/-- The merged record list of the `ANY` output branch (runner.go lines
791-802), in source order. -/
def anyMergedRecords (d : ResponseData) : List String :=
  d.A ++ d.AAAA ++ d.CNAME ++ d.MX ++ d.PTR ++ dedupe (getSOARecords d) ++
    d.NS ++ d.TXT ++ d.SRV ++ d.CAA

/-- The output dispatch of `worker` (runner.go lines 721-814), from the
wildcard-store branch to the per-type default section; returns the list of
items sent to the output channel for one resolved entry. `jsonRendered`
and `rawRendered` stand for the externally serialized JSON and raw forms. -/
def workerOutput (o : Options) (domain : String) (d : ResponseData)
    (jsonRendered rawRendered : String) : List String :=
  if o.WildcardDomain ≠ "" then []
  else if (0 < o.responseTypeFilterEntries.length) && shouldSkipRecord o.responseTypeFilterEntries d then []
  else if o.JSON then [jsonRendered]
  else if o.Raw then [rawRendered]
  else if 0 < o.responseTypeFilterEntries.length then
    outputRecordType o.ResponseOnly o.Response domain d.A "A" d.CDNName d.ASN ++
    outputRecordType o.ResponseOnly o.Response domain d.AAAA "AAAA" d.CDNName d.ASN ++
    outputRecordType o.ResponseOnly o.Response domain d.CNAME "CNAME" d.CDNName d.ASN ++
    outputRecordType o.ResponseOnly o.Response domain d.MX "MX" d.CDNName d.ASN ++
    outputRecordType o.ResponseOnly o.Response domain d.NS "NS" d.CDNName d.ASN ++
    outputRecordType o.ResponseOnly o.Response domain (dedupe (getSOARecords d)) "SOA" d.CDNName d.ASN ++
    outputRecordType o.ResponseOnly o.Response domain d.TXT "TXT" d.CDNName d.ASN ++
    outputRecordType o.ResponseOnly o.Response domain d.SRV "SRV" d.CDNName d.ASN ++
    outputRecordType o.ResponseOnly o.Response domain d.CAA "CAA" d.CDNName d.ASN ++
    outputRecordType o.ResponseOnly o.Response domain d.PTR "PTR" d.CDNName d.ASN
  else if o.hasRCodes then outputResponseCode domain d.statusCodeRaw
  else
    (if o.A then outputRecordType o.ResponseOnly o.Response domain d.A "A" d.CDNName d.ASN else []) ++
    (if o.AAAA then outputRecordType o.ResponseOnly o.Response domain d.AAAA "AAAA" d.CDNName d.ASN else []) ++
    (if o.CNAME then outputRecordType o.ResponseOnly o.Response domain d.CNAME "CNAME" d.CDNName d.ASN else []) ++
    (if o.PTR then outputRecordType o.ResponseOnly o.Response domain d.PTR "PTR" d.CDNName d.ASN else []) ++
    (if o.MX then outputRecordType o.ResponseOnly o.Response domain d.MX "MX" d.CDNName d.ASN else []) ++
    (if o.NS then outputRecordType o.ResponseOnly o.Response domain d.NS "NS" d.CDNName d.ASN else []) ++
    (if o.SOA then outputRecordType o.ResponseOnly o.Response domain (dedupe (getSOARecords d)) "SOA" d.CDNName d.ASN else []) ++
    (if o.ANY then outputRecordType o.ResponseOnly o.Response domain (anyMergedRecords d) "ANY" d.CDNName d.ASN else []) ++
    (if o.TXT then outputRecordType o.ResponseOnly o.Response domain d.TXT "TXT" d.CDNName d.ASN else []) ++
    (if o.SRV then outputRecordType o.ResponseOnly o.Response domain d.SRV "SRV" d.CDNName d.ASN else []) ++
    (if o.CAA then outputRecordType o.ResponseOnly o.Response domain d.CAA "CAA" d.CDNName d.ASN else [])

/-- The record lists of the default output section (runner.go lines
769-813) for the enabled type switches, in source order. -/
def defaultTypeRecordLists (o : Options) (d : ResponseData) : List (List String) :=
  (if o.A then [d.A] else []) ++
  (if o.AAAA then [d.AAAA] else []) ++
  (if o.CNAME then [d.CNAME] else []) ++
  (if o.PTR then [d.PTR] else []) ++
  (if o.MX then [d.MX] else []) ++
  (if o.NS then [d.NS] else []) ++
  (if o.SOA then [dedupe (getSOARecords d)] else []) ++
  (if o.ANY then [anyMergedRecords d] else []) ++
  (if o.TXT then [d.TXT] else []) ++
  (if o.SRV then [d.SRV] else []) ++
  (if o.CAA then [d.CAA] else [])

/-- How many of the enabled record types have a non-empty record list. -/
def defaultModeLineCount (o : Options) (d : ResponseData) : Nat :=
  ((defaultTypeRecordLists o d).filter (fun recs => !recs.isEmpty)).length

/-- The slice of `retryabledns.DNSData` read when a stored Work-Set value
is unmarshalled by the wildcard pass (runner.go lines 468-481): only the
`A` record list is consulted. -/
structure DNSData where
  A : List String
deriving Repr, DecidableEq

/-- The stored Work-Set value does not unmarshal as DNS data with at
least one A record: either `json.Unmarshal` fails (`none`, including the
`nil` value of a never-resolved host) or the A record list is empty. -/
def storedHasNoARecords (v : Option DNSData) : Bool :=
  match v with
  | none => true
  | some d => d.A.isEmpty

/-- `ipDomain[a][host] = struct{}{}` together with `listIPs` bookkeeping
(runner.go lines 474-481): an association list in first-seen IP order
whose buckets are host lists in insertion order (Go keeps the bucket as a
map used as a set; only membership matters downstream). -/
def addToIpDomain : List (String × List String) → String → String → List (String × List String)
  | [], ip, host => [(ip, [host])]
  | (k, hs) :: rest, ip, host =>
    if k = ip then (k, insertIfAbsent hs host) :: rest
    else (k, hs) :: addToIpDomain rest ip host

/-- The `hm.Scan` of the wildcard pass (runner.go lines 467-484): each
Work-Set entry whose value unmarshals as DNS data contributes its host
under every A record; entries whose value does not unmarshal (including
never-resolved `nil` values) are ignored. The stored bytes are modelled by
`Option DNSData`: `none` when `json.Unmarshal` fails. -/
def buildIpDomain (entries : List (String × Option DNSData)) : List (String × List String) :=
  entries.foldl
    (fun ipd e =>
      match e.2 with
      | none => ipd
      | some d => d.A.foldl (fun acc a => addToIpDomain acc a e.1) ipd)
    []

/-- The host sequence visited by the re-emission loops (runner.go lines
517-536): every bucket of `ipDomain` in `listIPs` order, flattened. -/
def allHosts (ipd : List (String × List String)) : List String :=
  ipd.flatMap Prod.snd

/-- The final emission pass (runner.go lines 514-536): per visited host,
the configured wildcard-domain root is emitted once (dedup by `seen`); a
host not in the wildcard set is emitted once (dedup by `seen`); a
remaining wildcard host is recorded once in the removed list (dedup by
`seenRemovedSubdomains`, whose length is `numRemovedSubdomains`). Each
emission is one `lookupAndOutput` call for the host; the pair returned is
(emitted hosts, removed hosts). -/
def wildcardFinalPass (wd : String) (wildcardSet : List String) :
    List String → List String → List String → List String × List String
  | [], _, _ => ([], [])
  | host :: rest, seen, seenRemoved =>
    if host = wd then
      if host ∈ seen then wildcardFinalPass wd wildcardSet rest seen seenRemoved
      else
        ((host :: (wildcardFinalPass wd wildcardSet rest (host :: seen) seenRemoved).1),
          (wildcardFinalPass wd wildcardSet rest (host :: seen) seenRemoved).2)
    else if host ∉ wildcardSet then
      if host ∈ seen then wildcardFinalPass wd wildcardSet rest seen seenRemoved
      else
        ((host :: (wildcardFinalPass wd wildcardSet rest (host :: seen) seenRemoved).1),
          (wildcardFinalPass wd wildcardSet rest (host :: seen) seenRemoved).2)
    else
      if host ∈ seenRemoved then wildcardFinalPass wd wildcardSet rest seen seenRemoved
      else
        ((wildcardFinalPass wd wildcardSet rest seen (host :: seenRemoved)).1,
          host :: (wildcardFinalPass wd wildcardSet rest seen (host :: seenRemoved)).2)

/-- The whole wildcard-enabled re-emission (runner.go lines 462-540) over
the scanned Work-Set entries: build `ipDomain`, then run the final pass
with empty `seen` sets. -/
def runWildcardPass (wd : String) (wildcardSet : List String)
    (entries : List (String × Option DNSData)) : List String × List String :=
  wildcardFinalPass wd wildcardSet (allHosts (buildIpDomain entries)) [] []

/-- Outcome of `InputWorkerStream`: either the nil-pointer panic of
calling `Scan` on a nil `*bufio.Scanner`, or normal completion with the
hosts pushed to the worker channel. -/
inductive StreamRun where
  | panicNilDeref : StreamRun
  | completed : List String → StreamRun
deriving Repr, DecidableEq

/-- The scanner selection of `InputWorkerStream` (runner.go lines
171-178): the hosts file when it exists, else standard input when
available, else the `sc` variable stays nil. A source is `some` of its
lines when available. -/
def streamScannerSource (hostsFileLines stdinLines : Option (List String)) :
    Option (List String) :=
  match hostsFileLines with
  | some ls => some ls
  | none => stdinLines

/-- `InputWorkerStream` (runner.go lines 170-198): `for sc.Scan()` on the
selected scanner — a nil scanner is dereferenced and the goroutine
panics; otherwise each line is trimmed, CIDR and ASN items are expanded,
and everything is pushed to the worker channel. -/
def inputWorkerStream (isCIDR isASN : String → Bool)
    (cidrExpand asnExpand : String → List String)
    (hostsFileLines stdinLines : Option (List String)) : StreamRun :=
  match streamScannerSource hostsFileLines stdinLines with
  | none => StreamRun.panicNilDeref
  | some lines =>
    StreamRun.completed (lines.flatMap (fun l =>
      let item := trimSpace l
      if isCIDR item then cidrExpand item
      else if isASN item then asnExpand item
      else [item]))

/-- The input-source selection of `prepareInput` (runner.go lines
247-270): the `-d` domains argument when set, else the hosts file when it
exists, else the buffered standard input when the hosts argument names
stdin or stdin is available, else the fatal error. -/
def prepareInputSource (domainsArg : Option (List String))
    (hostsFileLines : Option (List String))
    (hostsArgHasStdin hasStdin : Bool) (stdinLines : List String) :
    Except String (List String) :=
  match domainsArg with
  | some d => Except.ok d
  | none =>
    match hostsFileLines with
    | some f => Except.ok f
    | none =>
      if hostsArgHasStdin || hasStdin then Except.ok stdinLines
      else Except.error "hosts file or stdin not provided"


theorem inputWorkerLoop_eq_drop (resumeIndex : Nat) :
    ∀ (hosts : List String) (c : Nat),
      inputWorkerLoop resumeIndex c hosts = hosts.drop (resumeIndex - c) := by
  intro hosts
  induction hosts with
  | nil => intro c; simp [inputWorkerLoop]
  | cons h rest ih =>
    intro c
    by_cases hc : c + 1 ≤ resumeIndex
    · have h1 : resumeIndex - c = (resumeIndex - (c + 1)) + 1 := by omega
      simp only [inputWorkerLoop, if_pos hc, ih (c + 1), h1, List.drop_succ_cons]
    · have h1 : resumeIndex - c = 0 := by omega
      have h2 : resumeIndex - (c + 1) = 0 := by omega
      simp only [inputWorkerLoop, if_neg hc, ih (c + 1), h1, h2, List.drop_zero]


theorem mem_insertIfAbsent (hm : List String) (h x : String) :
    x ∈ insertIfAbsent hm h ↔ x ∈ hm ∨ x = h := by
  unfold insertIfAbsent
  split_ifs with hmem
  · constructor
    · exact Or.inl
    · rintro (hx | rfl)
      · exact hx
      · exact hmem
  · simp [List.mem_append]

theorem nodup_insertIfAbsent (hm : List String) (h : String) (hnd : hm.Nodup) :
    (insertIfAbsent hm h).Nodup := by
  unfold insertIfAbsent
  split_ifs with hmem
  · exact hnd
  · simp only [List.nodup_append, List.nodup_cons, List.not_mem_nil, not_false_iff,
      List.nodup_nil, and_true, List.disjoint_singleton]
    exact ⟨hnd, by simpa using hmem⟩

theorem mem_foldl_insert_normalize (lines : List String) :
    ∀ (hm : List String) (x : String),
      x ∈ lines.foldl (fun acc line => insertIfAbsent acc (normalize line)) hm ↔
        x ∈ hm ∨ ∃ s ∈ lines, normalize s = x := by
  induction lines with
  | nil => intro hm x; simp
  | cons l rest ih =>
    intro hm x
    rw [List.foldl_cons, ih, mem_insertIfAbsent]
    constructor
    · rintro ((hx | rfl) | ⟨s, hs, rfl⟩)
      · exact Or.inl hx
      · exact Or.inr ⟨l, List.mem_cons_self l rest, rfl⟩
      · exact Or.inr ⟨s, List.mem_cons_of_mem l hs, rfl⟩
    · rintro (hx | ⟨s, hs, rfl⟩)
      · exact Or.inl (Or.inl hx)
      · rcases List.mem_cons.mp hs with rfl | hs
        · exact Or.inl (Or.inr rfl)
        · exact Or.inr ⟨s, hs, rfl⟩

theorem nodup_foldl_insert_normalize (lines : List String) :
    ∀ hm : List String, hm.Nodup →
      (lines.foldl (fun acc line => insertIfAbsent acc (normalize line)) hm).Nodup := by
  induction lines with
  | nil => intro hm hnd; exact hnd
  | cons l rest ih => intro hm hnd; exact ih _ (nodup_insertIfAbsent _ _ hnd)

theorem prepareInputLoop_noExpansion (isCIDR isASN : String → Bool)
    (cidrExpand asnExpand : String → List String) :
    ∀ (lines : List String) (hm : List String),
      (∀ l ∈ lines, containsSub (normalize l).data "FUZZ".data = false ∧
        isCIDR (normalize l) = false ∧ isASN (normalize l) = false) →
      prepareInputLoop isCIDR isASN cidrExpand asnExpand none hm lines =
        some (lines.foldl (fun acc line => insertIfAbsent acc (normalize line)) hm) := by
  intro lines
  induction lines with
  | nil => intro hm _; rfl
  | cons l rest ih =>
    intro hm hno
    obtain ⟨h1, h2, h3⟩ := hno l (List.mem_cons_self l rest)
    rw [List.foldl_cons, ← ih (insertIfAbsent hm (normalize l))
      (fun x hx => hno x (List.mem_cons_of_mem l hx))]
    simp [prepareInputLoop, h1, h2, h3, addHostsToHMapFromList]

/-- Claim C2 counterexample: for the expansion-free input
`["ExAmple.COM", "   "]` the code's Work Set is `["ExAmple.COM", ""]`
(case preserved, blank line kept as the empty host) whereas the claimed
set of trimmed, lower-cased, deduplicated, non-empty hosts is
`["example.com"]`; the two sets differ in both directions. -/
theorem claim_C2_counterexample :
    prepareInputWorkSet (fun _ => false) (fun _ => false) (fun _ => []) (fun _ => [])
        none ["ExAmple.COM", "   "] = some ["ExAmple.COM", ""] ∧
    specClaimedWorkSet ["ExAmple.COM", "   "] = ["example.com"] ∧
    "ExAmple.COM" ∉ specClaimedWorkSet ["ExAmple.COM", "   "] ∧
    "example.com" ∉ (["ExAmple.COM", ""] : List String) := by
  refine ⟨?_, ?_, ?_, ?_⟩ <;> decide

/-- Claim C2 (amended): for every input set with no expansion sources (no
CIDR, ASN, FUZZ pattern, or wordlist), the Work Set after input expansion
equals exactly the set of whitespace-trimmed, deduplicated lines of S —
case is preserved and a line that trims to empty contributes the empty
string as an entry. -/
theorem claim_C2_amended (isCIDR isASN : String → Bool)
    (cidrExpand asnExpand : String → List String) (inputs : List String)
    (hno : ∀ l ∈ inputs, containsSub (normalize l).data "FUZZ".data = false ∧
      isCIDR (normalize l) = false ∧ isASN (normalize l) = false) :
    ∃ ws, prepareInputWorkSet isCIDR isASN cidrExpand asnExpand none inputs = some ws ∧
      ws.Nodup ∧ ∀ x, x ∈ ws ↔ ∃ s ∈ inputs, normalize s = x := by
  refine ⟨_, prepareInputLoop_noExpansion isCIDR isASN cidrExpand asnExpand inputs [] hno,
    nodup_foldl_insert_normalize inputs [] List.nodup_nil, fun x => ?_⟩
  rw [mem_foldl_insert_normalize]
  simp

theorem claim_C2_witness :
    (∀ l ∈ (["a.test ", "a.test", " b.test"] : List String),
        containsSub (normalize l).data "FUZZ".data = false ∧
        (fun _ : String => false) (normalize l) = false ∧
        (fun _ : String => false) (normalize l) = false) ∧
    (∃ ws, prepareInputWorkSet (fun _ => false) (fun _ => false) (fun _ => []) (fun _ => [])
        none ["a.test ", "a.test", " b.test"] = some ws ∧
      ws.Nodup ∧ ∀ x, x ∈ ws ↔ ∃ s ∈ (["a.test ", "a.test", " b.test"] : List String),
        normalize s = x) :=
  ⟨by decide, claim_C2_amended (fun _ => false) (fun _ => false) (fun _ => [])
    (fun _ => []) ["a.test ", "a.test", " b.test"] (by decide)⟩

/-- Claim C3 counterexample: with the AAAA switch enabled and wildcard
filtering requested, `New` appends A to the existing list, so the
effective Question Type Set is `[AAAA, A]`, not exactly `{A}` — refuting
the claim that it is exactly `{A}` whenever wildcard filtering is
requested. -/
theorem claim_C3_counterexample :
    (⟨false, true, false, false, false, false, false, false, false, false, false,
        "wild.test", false, false, false, false, false, [], []⟩ : Options).WildcardDomain ≠ "" ∧
    buildQuestionTypes ⟨false, true, false, false, false, false, false, false, false, false, false,
        "wild.test", false, false, false, false, false, [], []⟩ = [typeAAAA, typeA] ∧
    typeAAAA ≠ typeA := by
  refine ⟨?_, ?_, ?_⟩ <;> decide

/-- Claim C3 (amended): the effective Question Type Set is exactly `{A}`
whenever no record-type switch is enabled; when wildcard filtering is
requested, A is appended, so the set always contains A (but may contain
other enabled types as well). -/
theorem claim_C3_amended (o : Options) :
    (noRecordSwitch o → buildQuestionTypes o = [typeA]) ∧
    (o.WildcardDomain ≠ "" → typeA ∈ buildQuestionTypes o) := by
  constructor
  · rintro ⟨h1, h2, h3, h4, h5, h6, h7, h8, h9, h10, h11⟩
    simp [buildQuestionTypes, h1, h2, h3, h4, h5, h6, h7, h8, h9, h10, h11]
  · intro hw
    simp [buildQuestionTypes, hw]

theorem claim_C3_witness :
    buildQuestionTypes ⟨false, false, false, false, false, false, false, false, false, false,
        false, "", false, false, false, false, false, [], []⟩ = [typeA] ∧
    typeA ∈ buildQuestionTypes ⟨false, true, false, false, false, false, false, false, false,
        false, false, "wild.test", false, false, false, false, false, [], []⟩ :=
  ⟨(claim_C3_amended _).1 (by decide), (claim_C3_amended _).2 (by decide)⟩

/-- Claim C4: with a resume cursor of index I, `InputWorker` skips exactly
the first I items of the deterministic Work-Set scan, so the pushed
sequence is `hosts.drop I`, the first host pushed is the (I+1)-th scan
item (0-based index I), and an index at or beyond the Work-Set size pushes
nothing. -/
theorem claim_C4_resume (hosts : List String) (I : Nat) :
    inputWorker hosts (some I) = hosts.drop I ∧
    (inputWorker hosts (some I)).head? = hosts[I]? ∧
    (hosts.length ≤ I → inputWorker hosts (some I) = []) := by
  have hdrop : inputWorker hosts (some I) = hosts.drop I := by
    simpa [inputWorker] using inputWorkerLoop_eq_drop I hosts 0
  refine ⟨hdrop, ?_, fun hle => ?_⟩
  · rw [hdrop]; exact List.head?_drop hosts I
  · rw [hdrop]; exact List.drop_eq_nil_of_le hle

theorem claim_C4_witness :
    inputWorker ["a", "b", "c"] (some 1) = ["b", "c"] ∧
    (inputWorker ["a", "b", "c"] (some 1)).head? = some "b" ∧
    inputWorker ["a", "b", "c"] (some 5) = [] := by
  refine ⟨?_, ?_, ?_⟩
  · exact (claim_C4_resume ["a", "b", "c"] 1).1.trans (by decide)
  · exact (claim_C4_resume ["a", "b", "c"] 1).2.1.trans (by decide)
  · exact (claim_C4_resume ["a", "b", "c"] 5).2.2 (by decide)

/-- Claim C6 counterexample: with CNAME as the only configured query type
(so the only configured type is not AXFR), an empty transfer and non-JSON
output, the code discards the entry — refuting the claim that an entry is
discarded only when the sole configured query type is AXFR. -/
theorem claim_C6_counterexample :
    axfrDiscards [typeCNAME] none false = true ∧
    specAxfrDiscards [typeCNAME] none false = false := by
  refine ⟨?_, ?_⟩ <;> decide

/-- Claim C6 (amended): when zone transfer is enabled, a resolved entry is
discarded if and only if exactly one query type is configured (whatever it
is — including the default A added when only `-axfr` is passed), the
transfer returned no data, and output is not JSON. -/
theorem claim_C6_amended (questionTypes : List Nat) (axfrResult : Option Nat)
    (jsonOutput : Bool) :
    axfrDiscards questionTypes axfrResult jsonOutput = true ↔
      questionTypes.length = 1 ∧ hasAxfrData axfrResult = false ∧ jsonOutput = false := by
  cases jsonOutput <;>
    simp [axfrDiscards, Bool.and_eq_true, Nat.beq_eq_true_eq, Bool.not_eq_true']

theorem claim_C6_witness :
    axfrDiscards [typeA] none false = true :=
  (claim_C6_amended [typeA] none false).mpr ⟨by decide, by decide, rfl⟩

/-- Claim C7: when a response-code allow-list is configured, a resolved
answer is discarded exactly when it is not from the local hosts file and
its raw status code is not in the list; hosts-file answers are never
discarded by this check. -/
theorem claim_C7_rcode_filter (hostsFile : Bool) (rcodes : List Nat) (code : Nat)
    (hconf : rcodes ≠ []) :
    (rcodeFilterDiscards hostsFile rcodes code = true ↔
      hostsFile = false ∧ code ∉ rcodes) ∧
    (hostsFile = true → rcodeFilterDiscards hostsFile rcodes code = false) := by
  have hlen : 0 < rcodes.length := List.length_pos.mpr hconf
  cases hostsFile
  · simp [rcodeFilterDiscards, hlen, List.elem_iff]
  · simp [rcodeFilterDiscards]

theorem claim_C7_witness :
    rcodeFilterDiscards false [3] 0 = true ∧ rcodeFilterDiscards true [3] 0 = false :=
  ⟨(claim_C7_rcode_filter false [3] 0 (by decide)).1.mpr ⟨rfl, by decide⟩,
    (claim_C7_rcode_filter true [3] 0 (by decide)).2 rfl⟩

/-- Claim C9: in stream mode, when the configured hosts file does not
exist and standard input is not available, the scanner variable stays nil
and `InputWorkerStream` dereferences it and panics, while the non-stream
`prepareInput` path returns the fatal missing-input error instead. -/
theorem claim_C9_stream_nil_scanner (isCIDR isASN : String → Bool)
    (cidrExpand asnExpand : String → List String) (stdinLines : List String) :
    inputWorkerStream isCIDR isASN cidrExpand asnExpand none none =
      StreamRun.panicNilDeref ∧
    prepareInputSource none none false false stdinLines =
      Except.error "hosts file or stdin not provided" :=
  ⟨rfl, rfl⟩

theorem outputRecordType_default (domain : String) (records : List String)
    (queryType cdnName : String) (asnStr : Option String) :
    outputRecordType false false domain records queryType cdnName asnStr =
      if records.isEmpty then [] else [domain ++ mkDetails cdnName asnStr] := by
  cases records with
  | nil => rfl
  | cons r rest => rfl

theorem flatMap_emit_replicate (x : String) :
    ∀ ls : List (List String),
      (ls.flatMap (fun recs => if recs.isEmpty then [] else [x])) =
        List.replicate ((ls.filter (fun recs => !recs.isEmpty)).length) x := by
  intro ls
  induction ls with
  | nil => rfl
  | cons recs rest ih =>
    rw [List.flatMap_cons, List.filter_cons, ih]
    cases hrecs : recs.isEmpty
    · simp [List.replicate_succ]
    · simp

/-- Claim C5 counterexample: in default record-type mode with both the A
and AAAA switches enabled and a host having records of both types, the
line `host [CDN] [ASN]` (here just `x.test`, with empty details) is
emitted twice — once per type — refuting "at most once per host across
all requested question types". -/
theorem claim_C5_counterexample :
    (workerOutput
        ⟨true, true, false, false, false, false, false, false, false, false, false,
          "", false, false, false, false, false, [], []⟩
        "x.test"
        ⟨["1.2.3.4"], ["::1"], [], [], [], [], [], [], [], [], 0, false, "", none⟩
        "" "").count "x.test" = 2 := by decide

/-- Claim C5 (amended): in default record-type output mode (neither
`-resp` nor `-resp-only`, no JSON/raw/rcode/filter output), the line
`host [CDN] [ASN]` is emitted exactly once per requested question type
with non-empty records — hence possibly several times for one host, and
at most once per (host, type) pair. -/
theorem claim_C5_default_line_count (o : Options) (domain : String) (d : ResponseData)
    (jsonRendered rawRendered : String)
    (hwd : o.WildcardDomain = "") (hjson : o.JSON = false) (hraw : o.Raw = false)
    (hfil : o.responseTypeFilterEntries = []) (hrc : o.hasRCodes = false)
    (hro : o.ResponseOnly = false) (hre : o.Response = false) :
    workerOutput o domain d jsonRendered rawRendered =
      List.replicate (defaultModeLineCount o d) (domain ++ mkDetails d.CDNName d.ASN) := by
  unfold workerOutput
  rw [hwd, hjson, hraw, hfil, hrc, hro, hre]
  have hseg : ∀ (flag : Bool) (recs : List String) (qt : String),
      (if flag then outputRecordType false false domain recs qt d.CDNName d.ASN else []) =
      ((if flag then [recs] else []).flatMap
        (fun r => if r.isEmpty then [] else [domain ++ mkDetails d.CDNName d.ASN])) := by
    intro flag recs qt
    cases flag
    · rfl
    · simp [outputRecordType_default]
  simp only [ne_eq, not_true_eq_false, if_false, List.length_nil, Nat.lt_irrefl,
    decide_False, Bool.false_and, Bool.false_eq_true, ite_false]
  rw [hseg o.A d.A "A", hseg o.AAAA d.AAAA "AAAA", hseg o.CNAME d.CNAME "CNAME",
    hseg o.PTR d.PTR "PTR", hseg o.MX d.MX "MX", hseg o.NS d.NS "NS",
    hseg o.SOA (dedupe (getSOARecords d)) "SOA", hseg o.ANY (anyMergedRecords d) "ANY",
    hseg o.TXT d.TXT "TXT", hseg o.SRV d.SRV "SRV", hseg o.CAA d.CAA "CAA"]
  simp only [← List.flatMap_append]
  exact flatMap_emit_replicate (domain ++ mkDetails d.CDNName d.ASN) _

theorem claim_C5_witness :
    workerOutput
        ⟨true, true, false, false, false, false, false, false, false, false, false,
          "", false, false, false, false, false, [], []⟩
        "w.test"
        ⟨["9.9.9.9"], [], ["alias.test"], [], [], [], [], [], [], [], 0, false, "", none⟩
        "" "" =
      List.replicate
        (defaultModeLineCount
          ⟨true, true, false, false, false, false, false, false, false, false, false,
            "", false, false, false, false, false, [], []⟩
          ⟨["9.9.9.9"], [], ["alias.test"], [], [], [], [], [], [], [], 0, false, "", none⟩)
        ("w.test" ++ mkDetails "" none) :=
  claim_C5_default_line_count _ "w.test" _ "" "" rfl rfl rfl rfl rfl rfl rfl

theorem shouldSkipRecordLoop_cons (d : ResponseData) (et : String) (rest : List String) :
    shouldSkipRecordLoop d (et :: rest) =
      (if toLowerStr (trimSpace et) ∈ validTypeNames then
        (if 0 < filterFieldLen d (toLowerStr (trimSpace et)) then true
         else shouldSkipRecordLoop d rest)
       else false) := by
  simp only [shouldSkipRecordLoop]
  by_cases h1 : toLowerStr (trimSpace et) = "a"
  · simp [validTypeNames, filterFieldLen, h1, List.length_pos]
  by_cases h2 : toLowerStr (trimSpace et) = "aaaa"
  · simp [validTypeNames, filterFieldLen, h1, h2, List.length_pos]
  by_cases h3 : toLowerStr (trimSpace et) = "cname"
  · simp [validTypeNames, filterFieldLen, h1, h2, h3, List.length_pos]
  by_cases h4 : toLowerStr (trimSpace et) = "ns"
  · simp [validTypeNames, filterFieldLen, h1, h2, h3, h4, List.length_pos]
  by_cases h5 : toLowerStr (trimSpace et) = "txt"
  · simp [validTypeNames, filterFieldLen, h1, h2, h3, h4, h5, List.length_pos]
  by_cases h6 : toLowerStr (trimSpace et) = "mx"
  · simp [validTypeNames, filterFieldLen, h1, h2, h3, h4, h5, h6, List.length_pos]
  by_cases h7 : toLowerStr (trimSpace et) = "soa"
  · simp [validTypeNames, filterFieldLen, h1, h2, h3, h4, h5, h6, h7, List.length_pos]
  by_cases h8 : toLowerStr (trimSpace et) = "srv"
  · simp [validTypeNames, filterFieldLen, h1, h2, h3, h4, h5, h6, h7, h8, List.length_pos]
  by_cases h9 : toLowerStr (trimSpace et) = "ptr"
  · simp [validTypeNames, filterFieldLen, h1, h2, h3, h4, h5, h6, h7, h8, h9, List.length_pos]
  by_cases h10 : toLowerStr (trimSpace et) = "caa"
  · simp [validTypeNames, filterFieldLen, h1, h2, h3, h4, h5, h6, h7, h8, h9, h10,
      List.length_pos]
  · simp [validTypeNames, filterFieldLen, h1, h2, h3, h4, h5, h6, h7, h8, h9, h10]

theorem shouldSkipRecordLoop_iff (d : ResponseData) :
    ∀ fs : List String, (∀ et ∈ fs, toLowerStr (trimSpace et) ∈ validTypeNames) →
      (shouldSkipRecordLoop d fs = true ↔
        ∃ et ∈ fs, 0 < filterFieldLen d (toLowerStr (trimSpace et))) := by
  intro fs
  induction fs with
  | nil => intro _; simp [shouldSkipRecordLoop]
  | cons et rest ih =>
    intro hv
    rw [shouldSkipRecordLoop_cons, if_pos (hv et (List.mem_cons_self et rest))]
    by_cases hl : 0 < filterFieldLen d (toLowerStr (trimSpace et))
    · simp only [if_pos hl]
      constructor
      · intro _; exact ⟨et, List.mem_cons_self et rest, hl⟩
      · intro _; trivial
    · rw [if_neg hl, ih (fun x hx => hv x (List.mem_cons_of_mem et hx))]
      constructor
      · rintro ⟨x, hx, hfx⟩; exact ⟨x, List.mem_cons_of_mem et hx, hfx⟩
      · rintro ⟨x, hx, hfx⟩
        rcases List.mem_cons.mp hx with rfl | hx2
        · exact absurd hfx hl
        · exact ⟨x, hx2, hfx⟩

/-- Claim C8: with wildcard filtering disabled and a configured
response-type filter whose entries are (normalized) record-type names, a
resolved entry is suppressed by the filter gate exactly when the answer
has at least one record of at least one configured filter type. -/
theorem claim_C8_response_type_filter (o : Options) (d : ResponseData)
    (hconf : o.responseTypeFilterEntries ≠ [])
    (hvalid : ∀ et ∈ o.responseTypeFilterEntries,
      toLowerStr (trimSpace et) ∈ validTypeNames) :
    responseTypeFilterSuppresses o d = true ↔
      ∃ et ∈ o.responseTypeFilterEntries,
        0 < filterFieldLen d (toLowerStr (trimSpace et)) := by
  have hlen : 0 < o.responseTypeFilterEntries.length := List.length_pos.mpr hconf
  unfold responseTypeFilterSuppresses shouldSkipRecord
  rw [← shouldSkipRecordLoop_iff d o.responseTypeFilterEntries hvalid]
  simp [hlen]

theorem claim_C8_witness :
    responseTypeFilterSuppresses
        ⟨false, false, false, false, false, false, false, false, false, false, false,
          "", false, false, false, false, false, [], ["CNAME"]⟩
        ⟨[], [], ["alias.test"], [], [], [], [], [], [], [], 0, false, "", none⟩ = true :=
  (claim_C8_response_type_filter _ _ (by decide) (by decide)).mpr (by decide)



theorem wildcardFinalPass_fst_sub (wd : String) (wc : List String) :
    ∀ (hosts seen sr : List String) (x : String),
      x ∈ (wildcardFinalPass wd wc hosts seen sr).1 → x ∈ hosts := by
  intro hosts
  induction hosts with
  | nil => intro seen sr x hx; simp [wildcardFinalPass] at hx
  | cons h rest ih =>
    intro seen sr x hx
    simp only [wildcardFinalPass] at hx
    split_ifs at hx
    all_goals
      first
      | exact List.mem_cons_of_mem _ (ih _ _ _ hx)
      | (rcases List.mem_cons.mp hx with rfl | hx2
         · exact List.mem_cons_self _ _
         · exact List.mem_cons_of_mem _ (ih _ _ _ hx2))

theorem wildcardFinalPass_snd_sub (wd : String) (wc : List String) :
    ∀ (hosts seen sr : List String) (x : String),
      x ∈ (wildcardFinalPass wd wc hosts seen sr).2 → x ∈ hosts := by
  intro hosts
  induction hosts with
  | nil => intro seen sr x hx; simp [wildcardFinalPass] at hx
  | cons h rest ih =>
    intro seen sr x hx
    simp only [wildcardFinalPass] at hx
    split_ifs at hx
    all_goals
      first
      | exact List.mem_cons_of_mem _ (ih _ _ _ hx)
      | (rcases List.mem_cons.mp hx with rfl | hx2
         · exact List.mem_cons_self _ _
         · exact List.mem_cons_of_mem _ (ih _ _ _ hx2))

theorem wildcardFinalPass_cons (wd : String) (wc : List String)
    (h : String) (rest seen sr : List String) :
    wildcardFinalPass wd wc (h :: rest) seen sr =
      if h = wd ∨ h ∉ wc then
        (if h ∈ seen then wildcardFinalPass wd wc rest seen sr
         else ((h :: (wildcardFinalPass wd wc rest (h :: seen) sr).1),
               (wildcardFinalPass wd wc rest (h :: seen) sr).2))
      else
        (if h ∈ sr then wildcardFinalPass wd wc rest seen sr
         else ((wildcardFinalPass wd wc rest seen (h :: sr)).1,
               h :: (wildcardFinalPass wd wc rest seen (h :: sr)).2)) := by
  simp only [wildcardFinalPass]
  by_cases h1 : h = wd
  · simp [h1]
  · by_cases h3 : h ∈ wc
    · simp [h1, h3]
    · simp [h1, h3]

theorem count_pass_of_seen (wd : String) (wc : List String) :
    ∀ (hosts seen sr : List String) (x : String), x ∈ seen →
      (wildcardFinalPass wd wc hosts seen sr).1.count x = 0 := by
  intro hosts
  induction hosts with
  | nil => intro seen sr x hx; simp [wildcardFinalPass]
  | cons h rest ih =>
    intro seen sr x hx
    rw [wildcardFinalPass_cons]
    by_cases he : h = wd ∨ h ∉ wc
    · rw [if_pos he]
      by_cases hs : h ∈ seen
      · rw [if_pos hs]; exact ih seen sr x hx
      · rw [if_neg hs]
        have hne : x ≠ h := fun hxe => hs (hxe ▸ hx)
        simp [List.count_cons, beq_iff_eq, Ne.symm hne,
          ih (h :: seen) sr x (List.mem_cons_of_mem h hx)]
    · rw [if_neg he]
      by_cases hr : h ∈ sr
      · rw [if_pos hr]; exact ih seen sr x hx
      · rw [if_neg hr]; simpa using ih seen (h :: sr) x hx

theorem count_pass_emit_once (wd : String) (wc : List String) :
    ∀ (hosts seen sr : List String) (x : String), x ∉ seen → (x = wd ∨ x ∉ wc) →
      x ∈ hosts → (wildcardFinalPass wd wc hosts seen sr).1.count x = 1 := by
  intro hosts
  induction hosts with
  | nil => intro seen sr x _ _ hx; simp at hx
  | cons h rest ih =>
    intro seen sr x hxseen hxw hxmem
    rw [wildcardFinalPass_cons]
    by_cases he : h = wd ∨ h ∉ wc
    · rw [if_pos he]
      by_cases hs : h ∈ seen
      · rw [if_pos hs]
        have hne : x ≠ h := fun hxe => hxseen (hxe ▸ hs)
        exact ih seen sr x hxseen hxw ((List.mem_cons.mp hxmem).resolve_left hne)
      · rw [if_neg hs]
        by_cases hxh : x = h
        · subst hxh
          simp [List.count_cons,
            count_pass_of_seen wd wc rest (x :: seen) sr x (List.mem_cons_self x seen)]
        · have hxs2 : x ∉ h :: seen := by
            intro hmem
            rcases List.mem_cons.mp hmem with hxe | hxe
            · exact hxh hxe
            · exact hxseen hxe
          simp [List.count_cons, beq_iff_eq, Ne.symm hxh,
            ih (h :: seen) sr x hxs2 hxw ((List.mem_cons.mp hxmem).resolve_left hxh)]
    · rw [if_neg he]
      push_neg at he
      have hne : x ≠ h := by
        intro hxe
        subst hxe
        rcases hxw with hw | hw
        · exact he.1 hw
        · exact hw he.2
      by_cases hr : h ∈ sr
      · rw [if_pos hr]
        exact ih seen sr x hxseen hxw ((List.mem_cons.mp hxmem).resolve_left hne)
      · rw [if_neg hr]
        simpa using ih seen (h :: sr) x hxseen hxw ((List.mem_cons.mp hxmem).resolve_left hne)

theorem count_pass_wildcard_zero (wd : String) (wc : List String) :
    ∀ (hosts seen sr : List String) (x : String), x ≠ wd → x ∈ wc →
      (wildcardFinalPass wd wc hosts seen sr).1.count x = 0 := by
  intro hosts
  induction hosts with
  | nil => intro seen sr x _ _; simp [wildcardFinalPass]
  | cons h rest ih =>
    intro seen sr x hxwd hxwc
    rw [wildcardFinalPass_cons]
    by_cases he : h = wd ∨ h ∉ wc
    · rw [if_pos he]
      have hne : x ≠ h := by
        intro hxe
        subst hxe
        rcases he with hw | hw
        · exact hxwd hw
        · exact hw hxwc
      by_cases hs : h ∈ seen
      · rw [if_pos hs]; exact ih seen sr x hxwd hxwc
      · rw [if_neg hs]
        simp [List.count_cons, beq_iff_eq, Ne.symm hne, ih (h :: seen) sr x hxwd hxwc]
    · rw [if_neg he]
      by_cases hr : h ∈ sr
      · rw [if_pos hr]; exact ih seen sr x hxwd hxwc
      · rw [if_neg hr]; simpa using ih seen (h :: sr) x hxwd hxwc

theorem mem_allHosts_addToIpDomain (ip host x : String) :
    ∀ ipd : List (String × List String),
      x ∈ allHosts (addToIpDomain ipd ip host) ↔ x ∈ allHosts ipd ∨ x = host := by
  intro ipd
  induction ipd with
  | nil => simp [addToIpDomain, allHosts]
  | cons p rest ih =>
    obtain ⟨k, hs⟩ := p
    simp only [addToIpDomain]
    by_cases hk : k = ip
    · rw [if_pos hk]
      simp only [allHosts, List.flatMap_cons, List.mem_append, mem_insertIfAbsent]
      tauto
    · rw [if_neg hk]
      simp only [allHosts, List.flatMap_cons, List.mem_append] at ih ⊢
      rw [ih]
      tauto

theorem mem_allHosts_foldl_A (host x : String) :
    ∀ (as : List String) (ipd : List (String × List String)),
      x ∈ allHosts (as.foldl (fun acc a => addToIpDomain acc a host) ipd) ↔
        x ∈ allHosts ipd ∨ (x = host ∧ as ≠ []) := by
  intro as
  induction as with
  | nil => intro ipd; simp
  | cons a arest ih =>
    intro ipd
    rw [List.foldl_cons, ih, mem_allHosts_addToIpDomain]
    simp only [ne_eq, List.cons_ne_nil, not_false_iff, and_true]
    tauto

theorem mem_allHosts_buildIpDomain (entries : List (String × Option DNSData)) (x : String) :
    x ∈ allHosts (buildIpDomain entries) ↔
      ∃ d, (x, some d) ∈ entries ∧ d.A ≠ [] := by
  have hgen : ∀ acc : List (String × List String),
      x ∈ allHosts (entries.foldl
        (fun ipd e =>
          match e.2 with
          | none => ipd
          | some d => d.A.foldl (fun acc2 a => addToIpDomain acc2 a e.1) ipd) acc) ↔
        x ∈ allHosts acc ∨ ∃ d, (x, some d) ∈ entries ∧ d.A ≠ [] := by
    induction entries with
    | nil => intro acc; simp
    | cons e erest ih =>
      intro acc
      obtain ⟨k, v⟩ := e
      rw [List.foldl_cons]
      cases v with
      | none =>
        rw [ih]
        constructor
        · rintro (hacc | ⟨d, hd, hA⟩)
          · exact Or.inl hacc
          · exact Or.inr ⟨d, List.mem_cons_of_mem _ hd, hA⟩
        · rintro (hacc | ⟨d, hd, hA⟩)
          · exact Or.inl hacc
          · rcases List.mem_cons.mp hd with heq | hd2
            · simp at heq
            · exact Or.inr ⟨d, hd2, hA⟩
      | some dd =>
        rw [ih, mem_allHosts_foldl_A]
        constructor
        · rintro ((hacc | ⟨rfl, hA⟩) | ⟨d, hd, hA⟩)
          · exact Or.inl hacc
          · exact Or.inr ⟨dd, List.mem_cons_self _ _, hA⟩
          · exact Or.inr ⟨d, List.mem_cons_of_mem _ hd, hA⟩
        · rintro (hacc | ⟨d, hd, hA⟩)
          · exact Or.inl (Or.inl hacc)
          · rcases List.mem_cons.mp hd with heq | hd2
            · injection heq with h1 h2
              injection h2 with h3
              exact Or.inl (Or.inr ⟨h1, h3 ▸ hA⟩)
            · exact Or.inr ⟨d, hd2, hA⟩
  rw [buildIpDomain, hgen []]
  simp [allHosts]

/-- Claim C1: in the wildcard-enabled final emission pass over the grouped
Work-Set hosts, every visited host not in the Wildcard Root Set is emitted
exactly once, every visited host in the Wildcard Root Set (other than the
configured wildcard-domain root) is emitted zero times, and the configured
wildcard-domain root is emitted exactly once when present, even if it is
itself in the Wildcard Root Set. -/
theorem claim_C1_wildcard_emission (entries : List (String × Option DNSData))
    (wd : String) (wildcardSet : List String) (x : String)
    (hx : x ∈ allHosts (buildIpDomain entries)) :
    (x ∉ wildcardSet → (runWildcardPass wd wildcardSet entries).1.count x = 1) ∧
    (x ∈ wildcardSet → x ≠ wd → (runWildcardPass wd wildcardSet entries).1.count x = 0) ∧
    (x = wd → (runWildcardPass wd wildcardSet entries).1.count x = 1) := by
  unfold runWildcardPass
  refine ⟨fun hnw => ?_, fun hw hne => ?_, fun hroot => ?_⟩
  · exact count_pass_emit_once wd wildcardSet _ [] [] x (by simp) (Or.inr hnw) hx
  · exact count_pass_wildcard_zero wd wildcardSet _ [] [] x hne hw
  · exact count_pass_emit_once wd wildcardSet _ [] [] x (by simp) (Or.inl hroot) hx

theorem claim_C1_witness :
    "x.a.test" ∈ allHosts (buildIpDomain
      [("w.a.test", some ⟨["1.1.1.1"]⟩), ("x.a.test", some ⟨["1.1.1.1"]⟩)]) ∧
    (runWildcardPass "a.test" ["w.a.test"]
      [("w.a.test", some ⟨["1.1.1.1"]⟩), ("x.a.test", some ⟨["1.1.1.1"]⟩)]).1.count
        "x.a.test" = 1 ∧
    (runWildcardPass "a.test" ["w.a.test"]
      [("w.a.test", some ⟨["1.1.1.1"]⟩), ("x.a.test", some ⟨["1.1.1.1"]⟩)]).1.count
        "w.a.test" = 0 :=
  ⟨by decide,
    (claim_C1_wildcard_emission _ "a.test" ["w.a.test"] "x.a.test" (by decide)).1 (by decide),
    (claim_C1_wildcard_emission _ "a.test" ["w.a.test"] "w.a.test" (by decide)).2.1
      (by decide) (by decide)⟩

/-- Claim C10: in the wildcard-enabled final emission pass, a host is
emitted only if its stored Work-Set value unmarshals as DNS data with at
least one A record; a host none of whose Work-Set entries carries an A
record (unmarshal failure, `nil` value, or empty A list) is emitted zero
times and is not counted among the removed wildcard subdomains. -/
theorem claim_C10_requires_a_records (entries : List (String × Option DNSData))
    (wd : String) (wildcardSet : List String) (x : String)
    (hno : ∀ p ∈ entries, p.1 = x → storedHasNoARecords p.2 = true) :
    (runWildcardPass wd wildcardSet entries).1.count x = 0 ∧
    x ∉ (runWildcardPass wd wildcardSet entries).2 ∧
    (∀ y ∈ (runWildcardPass wd wildcardSet entries).1,
      ∃ d, (y, some d) ∈ entries ∧ d.A ≠ []) := by
  have hnotin : x ∉ allHosts (buildIpDomain entries) := by
    rw [mem_allHosts_buildIpDomain]
    rintro ⟨d, hmem, hA⟩
    have hstored := hno (x, some d) hmem rfl
    simp only [storedHasNoARecords, List.isEmpty_iff] at hstored
    exact hA hstored
  refine ⟨?_, ?_, ?_⟩
  · rw [List.count_eq_zero]
    intro hmem
    exact hnotin (wildcardFinalPass_fst_sub wd wildcardSet _ [] [] x hmem)
  · intro hmem
    exact hnotin (wildcardFinalPass_snd_sub wd wildcardSet _ [] [] x hmem)
  · intro y hy
    rw [← mem_allHosts_buildIpDomain]
    exact wildcardFinalPass_fst_sub wd wildcardSet _ [] [] y hy

theorem claim_C10_witness :
    (∀ p ∈ ([("c.test", some ⟨[]⟩), ("a.test", some ⟨["1.1.1.1"]⟩)] :
        List (String × Option DNSData)), p.1 = "c.test" →
      storedHasNoARecords p.2 = true) ∧
    (runWildcardPass "" [] [("c.test", some ⟨[]⟩),
      ("a.test", some ⟨["1.1.1.1"]⟩)]).1.count "c.test" = 0 ∧
    "c.test" ∉ (runWildcardPass "" [] [("c.test", some ⟨[]⟩),
      ("a.test", some ⟨["1.1.1.1"]⟩)]).2 :=
  ⟨by decide,
    (claim_C10_requires_a_records _ "" [] "c.test" (by decide)).1,
    (claim_C10_requires_a_records _ "" [] "c.test" (by decide)).2.1⟩

end Runner
